import Mathlib

/-!
Shallow embedding of the tmux-mcp command subsystem (src/src/tmux.ts):
the key translator `convertToTmuxKeys`, the serialization queue
(`TmuxCommandQueue.processQueue`, modelled as `runQueue`), the error
classification of `executeTmux` and the degrading read-only callers
(`listSessions`, `capturePaneContent`), the shell configuration
(`setShellConfig`), and the tracked-execution registry
(`executeCommand` record creation, `checkCommandStatus`,
`cleanupOldCommands`).

Machine time is modelled as `Nat` milliseconds (JavaScript `Date.now()`).
Strings are Lean `String`s; JavaScript per-character case mapping is
modelled with `Char.toUpper` / `Char.toLower` (ASCII-faithful).
-/

namespace Tmux

/-! ### Key translator (tmux.ts lines 335-460) -/

/-- JavaScript `String.prototype.toLowerCase`, per character. -/
def lowerStr (s : String) : String :=
  String.mk (s.toList.map Char.toLower)

/-- The fixed table of named keys (tmux.ts lines 340-374), in source order:
    input spelling paired with the emitted tmux token. -/
def specialKeys : List (String × String) :=
  [("Enter", "Enter"), ("Return", "Enter"), ("Tab", "Tab"),
   ("Escape", "Escape"), ("Esc", "Escape"), ("Space", "Space"),
   ("Backspace", "BSpace"), ("BSpace", "BSpace"), ("Delete", "Delete"),
   ("Del", "Delete"), ("Up", "Up"), ("Down", "Down"), ("Left", "Left"),
   ("Right", "Right"), ("Home", "Home"), ("End", "End"),
   ("PageUp", "PPage"), ("PageDown", "NPage"), ("PgUp", "PPage"),
   ("PgDn", "NPage"), ("Insert", "IC"), ("F1", "F1"), ("F2", "F2"),
   ("F3", "F3"), ("F4", "F4"), ("F5", "F5"), ("F6", "F6"), ("F7", "F7"),
   ("F8", "F8"), ("F9", "F9"), ("F10", "F10"), ("F11", "F11"),
   ("F12", "F12")]

/-- `Object.keys(specialKeys).find(key => key.toLowerCase() === inputLower)`
    (tmux.ts line 378): first table entry whose key lowercases to the target. -/
def lookupSpecialKey (target : String) : Option (String × String) :=
  specialKeys.find? (fun p => lowerStr p.1 == target)

/-- The `switch (char)` of the character-wise loop (tmux.ts lines 398-455):
    fixed control bytes map to named tokens, a single quote is emitted as an
    escaped-quote token, any other character is emitted verbatim. -/
def charToKey (c : Char) : String :=
  if c = '\x03' then "C-c"
  else if c = '\x04' then "C-d"
  else if c = '\x1a' then "C-z"
  else if c = '\x12' then "C-r"
  else if c = '\x0c' then "C-l"
  else if c = '\x15' then "C-u"
  else if c = '\x0b' then "C-k"
  else if c = '\x01' then "C-a"
  else if c = '\x05' then "C-e"
  else if c = '\x08' then "BSpace"
  else if c = '\x7f' then "Delete"
  else if c = '\x1b' then "Escape"
  else if c = '\t' then "Tab"
  else if c = '\n' then "Enter"
  else if c = '\x0d' then "Enter"
  else if c = ' ' then "Space"
  else if c = '\x27' then "\x22\x27\x22"
  else String.singleton c

/-- The character-wise `while` loop (tmux.ts lines 385-457): a caret with a
    following character merges into a Control token (`i += 2`); otherwise one
    character is consumed per step via the `switch`. -/
def convertChars : List Char → List String
  | [] => []
  | '^' :: c :: rest => ("C-".push c.toUpper.toLower) :: convertChars rest
  | c :: rest => charToKey c :: convertChars rest

/-- `convertToTmuxKeys` (tmux.ts lines 335-460): whole-string named-key lookup
    first; on no match, character-wise decomposition. -/
def convertToTmuxKeys (input : String) : List String :=
  match lookupSpecialKey (lowerStr input) with
  | some p => [p.2]
  | none => convertChars input.toList

/-! ### Lemmas about the named-key lookup -/

lemma specialKeys_lower_nodup :
    ((specialKeys.map (fun p => lowerStr p.1))).Nodup := by
  decide

lemma find_of_mem_lower_nodup (l : List (String × String)) (k v target : String)
    (hm : (k, v) ∈ l) (hn : (l.map (fun p => lowerStr p.1)).Nodup)
    (ht : target = lowerStr k) :
    l.find? (fun p => lowerStr p.1 == target) = some (k, v) := by
  induction l with
  | nil => simp at hm
  | cons hd tl ih =>
    rcases List.mem_cons.mp hm with heq | htl
    · subst heq
      apply List.find?_cons_of_pos
      simp [ht]
    · have hn2 := List.nodup_cons.mp hn
      have hne : (lowerStr hd.1 == target) = false := by
        by_contra hcon
        have heqb : lowerStr hd.1 = target := by
          have := Bool.not_eq_false _ |>.mp hcon
          exact eq_of_beq this
        have hmem : lowerStr k ∈ tl.map (fun p => lowerStr p.1) :=
          List.mem_map_of_mem _ htl
        have h1 : lowerStr hd.1 ∉ tl.map (fun p => lowerStr p.1) := hn2.1
        rw [ht] at heqb
        rw [heqb] at h1
        exact h1 hmem
      rw [List.find?_cons_of_neg _ (by simp [hne])]
      exact ih htl hn2.2

/-- C3: for every input string that case-insensitively equals one of the named
    keys of the fixed table, `convertToTmuxKeys` returns exactly one token,
    the named-key token of that table entry, and the character-wise
    decomposition rules are not applied. -/
theorem convertToTmuxKeys_whole_special_key (input k v : String)
    (hm : (k, v) ∈ specialKeys) (hl : lowerStr input = lowerStr k) :
    convertToTmuxKeys input = [v] := by
  unfold convertToTmuxKeys lookupSpecialKey
  rw [find_of_mem_lower_nodup specialKeys k v (lowerStr input) hm
    specialKeys_lower_nodup hl]

/-- Witness for C3 at the concrete input "ENTER" (case-insensitive match of
    the table key "Enter"): a single "Enter" token is produced. -/
theorem convertToTmuxKeys_whole_special_key_witness :
    convertToTmuxKeys "ENTER" = ["Enter"] :=
  convertToTmuxKeys_whole_special_key "ENTER" "Enter" "Enter"
    (by decide) (by decide)

/-- C5: in character-wise translation a caret followed by at least one more
    character merges with it into a single Control token whose letter payload
    is that character uppercased then lowercased; "^C" and "^c" both yield
    "C-c" and "^z" yields "C-z"; a caret that is the last character, with
    nothing after it, is emitted as a literal caret token. -/
theorem convertChars_caret_handling :
    (∀ (c : Char) (rest : List Char),
        convertChars ('^' :: c :: rest) =
          ("C-".push c.toUpper.toLower) :: convertChars rest) ∧
    convertToTmuxKeys "^C" = ["C-c"] ∧
    convertToTmuxKeys "^c" = ["C-c"] ∧
    convertToTmuxKeys "^z" = ["C-z"] ∧
    convertChars ['^'] = ["^"] ∧
    convertToTmuxKeys "ab^" = ["a", "b", "^"] :=
  ⟨fun _ _ => rfl, by decide, by decide, by decide, by decide, by decide⟩

/-! ### Command queue (tmux.ts lines 16-74)

`TmuxCommandQueue.processQueue` drains the queue on a single logical worker
(the `isProcessing` flag stops a second drain loop from starting, so a new
`enqueue` during a drain only appends).  We model one drain over the queue
contents: each queued command is described by its text, the duration of its
`exec` invocation and whether that invocation succeeds, together with its
stdout (on success) or the error message (on failure).  `runQueue` threads
the wall clock and `lastExecutionTime` exactly as the loop does: the wait
`setTimeout(minInterval - timeSinceLastExecution)` makes the dispatch start
at `max now (lastExecutionTime + 10)`, and `lastExecutionTime` is updated to
the invocation end only on success (line 55 sits after `await exec` inside
the `try`). -/

structure QueuedCmd where
  command : String
  dur : Nat
  ok : Bool
  output : String
  errMsg : String
deriving DecidableEq, Repr

inductive Outcome where
  | resolved (out : String)
  | rejected (msg : String)
deriving DecidableEq, Repr

def Outcome.isResolved : Outcome → Bool
  | .resolved _ => true
  | .rejected _ => false

/-- What the drain loop does with one queued command: resolve with the
    trimmed stdout, or reject with the wrapped error message (line 58). -/
def runOutcome (c : QueuedCmd) : Outcome :=
  if c.ok then .resolved c.output.trim
  else .rejected ("Failed to execute tmux command: " ++ c.errMsg)

structure DispatchRecord where
  command : String
  start : Nat
  finish : Nat
  outcome : Outcome
deriving DecidableEq, Repr

/-- One drain of `processQueue` (tmux.ts lines 44-60) starting at wall-clock
    time `t` with the stored `lastExecutionTime`. -/
def runQueue : Nat → Nat → List QueuedCmd → List DispatchRecord
  | _, _, [] => []
  | t, lastExecutionTime, c :: rest =>
    let start := max t (lastExecutionTime + 10)
    let fin := start + c.dur
    { command := c.command, start := start, finish := fin,
      outcome := runOutcome c } ::
      runQueue fin (if c.ok then fin else lastExecutionTime) rest

/-! ### Error classification and degrading callers
(tmux.ts lines 128-141, 158-181, 255-265) -/

/-- `p.leadsWith s`: the character list `p` is an initial segment of `s`
    (JavaScript-style, used to build the substring check of `includes`). -/
def leadsWith : List Char → List Char → Bool
  | [], _ => true
  | _ :: _, [] => false
  | p :: ps, c :: cs => p == c && leadsWith ps cs

/-- `occursIn pat s`: `pat` occurs contiguously somewhere in `s`. -/
def occursIn (pat : List Char) : List Char → Bool
  | [] => pat.isEmpty
  | c :: cs => leadsWith pat (c :: cs) || occursIn pat cs

/-- JavaScript `s.includes(pat)`. -/
def includes (s pat : String) : Bool :=
  occursIn pat.toList s.toList

/-- The three substrings that make `executeTmux` classify a failure as
    "tmux server not available" (tmux.ts lines 134-136). -/
def isServerUnavailableMsg (msg : String) : Bool :=
  includes msg "no server running" ||
  includes msg "failed to connect to server" ||
  includes msg "connection refused"

/-- `executeTmux` (tmux.ts lines 128-141) applied to the queue's outcome for
    the submitted command: success passes the output through; a rejection is
    classified by its message and re-thrown with the matching prefix. -/
def executeTmuxResult : Outcome → Except String String
  | .resolved out => .ok out
  | .rejected m =>
    if isServerUnavailableMsg m then
      .error ("Tmux server not available: " ++ m)
    else
      .error ("Failed to execute tmux command: " ++ m)

structure TmuxSession where
  id : String
  name : String
  attached : Bool
  windows : Option Nat
deriving DecidableEq, Repr

/-- JavaScript `parseInt(s, 10)` restricted to the digit-prefix core:
    `none` models `NaN` (no leading digits). -/
def jsParseInt (s : String) : Option Nat :=
  let ds := s.toList.takeWhile Char.isDigit
  if ds.isEmpty then none
  else some (ds.foldl (fun n c => n * 10 + (c.toNat - 48)) 0)

/-- One line of `list-sessions` output split on ":" (tmux.ts lines 165-172);
    a missing field (JavaScript `undefined`) is modelled as `""`. -/
def parseSessionLine (line : String) : TmuxSession :=
  let parts := line.splitOn ":"
  { id := parts.getD 0 "", name := parts.getD 1 "",
    attached := parts.getD 2 "" = "1",
    windows := jsParseInt (parts.getD 3 "") }

/-- The success path of `listSessions` (tmux.ts lines 163-173):
    empty output is falsy and yields `[]`. -/
def parseSessions (output : String) : List TmuxSession :=
  if output = "" then []
  else (output.splitOn "\n").map parseSessionLine

/-- `listSessions` (tmux.ts lines 158-181) applied to the queue outcome of
    its `list-sessions` invocation: parse on success; on an error whose
    message contains "Tmux server not available", degrade to `[]`;
    otherwise re-throw. -/
def listSessionsResult (o : Outcome) : Except String (List TmuxSession) :=
  match executeTmuxResult o with
  | .ok output => .ok (parseSessions output)
  | .error m =>
    if includes m "Tmux server not available" then .ok [] else .error m

/-- `capturePaneContent` (tmux.ts lines 255-265) applied to the queue outcome
    of its `capture-pane` invocation. -/
def capturePaneContentResult (o : Outcome) : Except String String :=
  match executeTmuxResult o with
  | .ok out => .ok out
  | .error m =>
    if includes m "Tmux server not available" then
      .ok "Tmux server is not available. Cannot capture pane content."
    else .error m

/-! ### Queue theorems (C2, C4) -/

lemma runQueue_map_command : ∀ (q : List QueuedCmd) (t l : Nat),
    (runQueue t l q).map DispatchRecord.command = q.map QueuedCmd.command := by
  intro q
  induction q with
  | nil => intro t l; rfl
  | cons c rest ih => intro t l; simp [runQueue, ih]

lemma runQueue_chain_spacing : ∀ (q : List QueuedCmd) (t l : Nat),
    List.Chain'
      (fun a b => a.outcome.isResolved = true → a.finish + 10 ≤ b.start)
      (runQueue t l q) := by
  intro q
  induction q with
  | nil => intro t l; simp [runQueue]
  | cons c rest ih =>
    intro t l
    rw [runQueue, List.chain'_cons']
    refine ⟨?_, ih _ _⟩
    intro b hb hres
    cases rest with
    | nil => simp [runQueue] at hb
    | cons d rest2 =>
      rw [runQueue] at hb
      simp only [Option.mem_def, List.head?_cons, Option.some.injEq] at hb
      subst hb
      have hok : c.ok = true := by
        by_contra h
        rw [Bool.not_eq_true] at h
        simp [runOutcome, Outcome.isResolved, h] at hres
      simp only [hok, if_true]
      exact le_max_right _ _

/-- C2 (amended): one queue drain dispatches the queued commands strictly in
    submission order with no concurrent dispatch, the first dispatch starts at
    `max now (lastExecutionTime + 10)` (immediately when the gap since the
    spacing reference already exceeds the interval), and whenever an
    invocation succeeds the next dispatch starts at least 10 time units after
    its end.  (After a failed invocation the spacing reference is not updated,
    so the next dispatch may start with no delay after the failure.) -/
theorem runQueue_fifo_and_spacing (t l : Nat) (q : List QueuedCmd) :
    (runQueue t l q).map DispatchRecord.command = q.map QueuedCmd.command ∧
    (∀ r ∈ (runQueue t l q).head?, r.start = max t (l + 10)) ∧
    List.Chain'
      (fun a b => a.outcome.isResolved = true → a.finish + 10 ≤ b.start)
      (runQueue t l q) := by
  refine ⟨runQueue_map_command q t l, ?_, runQueue_chain_spacing q t l⟩
  intro r hr
  cases q with
  | nil => simp [runQueue] at hr
  | cons c rest =>
    rw [runQueue] at hr
    simp only [Option.mem_def, List.head?_cons, Option.some.injEq] at hr
    subst hr
    rfl

/-- Counterexample to C2 as stated: after an invocation that fails (here the
    middle command), the next dispatch starts with a gap of 0 (not ≥ 10) after
    the failed invocation's end, because `lastExecutionTime` is only updated
    on success. -/
theorem runQueue_spacing_counterexample :
    let q : List QueuedCmd :=
      [⟨"list-sessions", 0, true, "", ""⟩,
       ⟨"send-keys", 5, false, "", "exited with code 1"⟩,
       ⟨"capture-pane", 0, true, "", ""⟩]
    ((runQueue 0 0 q).map DispatchRecord.command = q.map QueuedCmd.command) ∧
    (((runQueue 0 0 q).get? 1).map DispatchRecord.finish = some 25) ∧
    (((runQueue 0 0 q).get? 2).map DispatchRecord.start = some 25) := by
  decide

/-- C4: in one queue drain, every submitted command is executed exactly once
    and its continuation resolved exactly once — the dispatch records are in
    bijection with the queue, in order, and each carries exactly one outcome:
    resolution with the invocation's trimmed output on success, rejection with
    the wrapped failure message otherwise, never both and never neither. -/
theorem runQueue_exactly_once (t l : Nat) (q : List QueuedCmd) :
    (runQueue t l q).map (fun r => (r.command, r.outcome)) =
      q.map (fun c => (c.command,
        if c.ok then Outcome.resolved c.output.trim
        else Outcome.rejected ("Failed to execute tmux command: " ++ c.errMsg))) := by
  induction q generalizing t l with
  | nil => rfl
  | cons c rest ih => simp [runQueue, runOutcome, ih]

/-! ### Classification theorems (C6) -/

lemma strToList_append (a b : String) : (a ++ b).toList = a.toList ++ b.toList :=
  rfl

lemma leadsWith_self_append (p r : List Char) : leadsWith p (p ++ r) = true := by
  induction p with
  | nil => rfl
  | cons c cs ih => simp [leadsWith, ih]

lemma occursIn_of_leadsWith (p s : List Char) (h : leadsWith p s = true) :
    occursIn p s = true := by
  cases s with
  | nil =>
    cases p with
    | nil => rfl
    | cons c cs => simp [leadsWith] at h
  | cons c cs => simp [occursIn, h]

lemma occursIn_self_append (p r : List Char) : occursIn p (p ++ r) = true :=
  occursIn_of_leadsWith _ _ (leadsWith_self_append p r)

lemma includes_tsna_prefix (m : String) :
    includes ("Tmux server not available: " ++ m)
      "Tmux server not available" = true := by
  unfold includes
  have h : ("Tmux server not available: " ++ m).toList
      = "Tmux server not available".toList ++ (':' :: ' ' :: m.toList) := by
    rw [strToList_append]
    rfl
  rw [h]
  exact occursIn_self_append _ _

/-- C6 (amended): a queue failure whose message (as wrapped by the queue)
    contains one of the three endpoint-unreachable substrings is classified
    "Tmux server not available" and exactly then the read-only callers
    degrade: `listSessions` returns `[]` and `capturePaneContent` returns the
    placeholder string.  Any other failure is classified as a generic
    invocation failure and — provided its propagated message does not itself
    contain the text "Tmux server not available" — is propagated unchanged to
    the caller. -/
theorem tmux_failure_classification (msg : String) :
    (isServerUnavailableMsg ("Failed to execute tmux command: " ++ msg) = true →
      listSessionsResult
          (.rejected ("Failed to execute tmux command: " ++ msg)) = .ok [] ∧
      capturePaneContentResult
          (.rejected ("Failed to execute tmux command: " ++ msg)) =
        .ok "Tmux server is not available. Cannot capture pane content.") ∧
    (isServerUnavailableMsg ("Failed to execute tmux command: " ++ msg) = false →
      includes ("Failed to execute tmux command: " ++
          ("Failed to execute tmux command: " ++ msg))
        "Tmux server not available" = false →
      listSessionsResult
          (.rejected ("Failed to execute tmux command: " ++ msg)) =
        .error ("Failed to execute tmux command: " ++
          ("Failed to execute tmux command: " ++ msg)) ∧
      capturePaneContentResult
          (.rejected ("Failed to execute tmux command: " ++ msg)) =
        .error ("Failed to execute tmux command: " ++
          ("Failed to execute tmux command: " ++ msg))) := by
  constructor
  · intro h
    constructor
    · simp [listSessionsResult, executeTmuxResult, h, includes_tsna_prefix]
    · simp [capturePaneContentResult, executeTmuxResult, h, includes_tsna_prefix]
  · intro h1 h2
    constructor
    · simp [listSessionsResult, executeTmuxResult, h1, h2]
    · simp [capturePaneContentResult, executeTmuxResult, h1, h2]

/-- Witness for C6 at the concrete failure message "no server running":
    classified endpoint-unavailable, and both read-only callers degrade. -/
theorem tmux_failure_classification_witness :
    listSessionsResult
        (.rejected ("Failed to execute tmux command: " ++ "no server running")) =
      .ok [] ∧
    capturePaneContentResult
        (.rejected ("Failed to execute tmux command: " ++ "no server running")) =
      .ok "Tmux server is not available. Cannot capture pane content." :=
  (tmux_failure_classification "no server running").1 (by decide)

/-- Counterexample to C6 as stated: an invoker failure whose message is
    literally "Tmux server not available" matches none of the three
    endpoint-unreachable substrings, so it is classified as a generic
    invocation failure — yet `listSessions` and `capturePaneContent` degrade
    instead of propagating it, because they test the propagated message for
    the substring "Tmux server not available". -/
theorem tmux_failure_classification_counterexample :
    isServerUnavailableMsg
        ("Failed to execute tmux command: " ++ "Tmux server not available") =
      false ∧
    listSessionsResult
        (.rejected
          ("Failed to execute tmux command: " ++ "Tmux server not available")) =
      .ok [] ∧
    capturePaneContentResult
        (.rejected
          ("Failed to execute tmux command: " ++ "Tmux server not available")) =
      .ok "Tmux server is not available. Cannot capture pane content." :=
  ⟨by decide, by rfl, by rfl⟩

/-! ### Shell configuration (tmux.ts lines 109-122) -/

inductive ShellType where
  | bash
  | zsh
  | fish
deriving DecidableEq, Repr

def validShells : List String := ["bash", "zsh", "fish"]

/-- The TypeScript cast `config.type as ShellType` on a validated string. -/
def shellTypeOfValid (s : String) : ShellType :=
  if s = "zsh" then .zsh else if s = "fish" then .fish else .bash

/-- `setShellConfig` (tmux.ts lines 113-122): the new process-wide shell
    configuration as a function of the previous one and the requested type
    string.  An invalid type silently resets to bash. -/
def setShellConfig (_prev : ShellType) (t : String) : ShellType :=
  if validShells.contains t then shellTypeOfValid t else .bash

/-! ### Tracked executions (tmux.ts lines 99-107, 463-493, 509-577) -/

inductive CommandStatus where
  | pending
  | completed
  | error
deriving DecidableEq, Repr

structure CommandExecution where
  id : String
  paneId : String
  command : String
  status : CommandStatus
  startTime : Nat
  result : Option String
  exitCode : Option Int
deriving DecidableEq, Repr

/-- JavaScript regex `\s` (whitespace class), as used by the prompt patterns. -/
def isSpaceJS (c : Char) : Bool :=
  c = ' ' || c = '\t' || c = '\n' || c = '\x0d' || c = '\x0b' || c = '\x0c' ||
  c.toNat = 0xa0 || c.toNat = 0x1680 ||
  (0x2000 ≤ c.toNat && c.toNat ≤ 0x200a) ||
  c.toNat = 0x2028 || c.toNat = 0x2029 || c.toNat = 0x202f ||
  c.toNat = 0x205f || c.toNat = 0x3000 || c.toNat = 0xfeff

def promptChars : List Char := ['$', '>', '#', '%']

/-- `promptPatterns.some(pattern => pattern.test(currentContent))`
    (tmux.ts lines 525-532): the regexes `/\$\s*$/`, `/>\s*$/`, `/#\s*$/`,
    `/\%\s*$/` match exactly when, after discarding trailing whitespace, the
    content ends in one of the four prompt characters. -/
def hasPrompt (content : String) : Bool :=
  match content.toList.reverse.dropWhile isSpaceJS with
  | [] => false
  | c :: _ => promptChars.contains c

/-- `checkCommandStatus` (tmux.ts lines 509-554) on a stored record, given
    the outcome `captureResult` that `capturePaneContent` would produce and
    the current time `now`.  The second component counts how many pane
    captures the call performs (0 on the terminal-status early return,
    1 otherwise). -/
def checkCommandStatus (cmd : CommandExecution)
    (captureResult : Except String String) (now : Nat) :
    CommandExecution × Nat :=
  if cmd.status ≠ .pending then (cmd, 0)
  else
    match captureResult with
    | .error _ => (cmd, 1)
    | .ok currentContent =>
      if currentContent ≠ cmd.result.getD "" ∧ hasPrompt currentContent = true then
        if 500 < now - cmd.startTime then
          ({ cmd with status := .completed, exitCode := some 0, result := some currentContent }, 1)
        else (cmd, 1)
      else (cmd, 1)

/-- The record `executeCommand` (tmux.ts lines 470-477) inserts into
    `activeCommands`: pending, created now, baseline snapshot stored in
    `result`. -/
def mkPendingExecution (id paneId command initialContent : String)
    (now : Nat) : CommandExecution :=
  { id := id, paneId := paneId, command := command, status := .pending,
    startTime := now, result := some initialContent, exitCode := none }

/-- The sweep condition of `cleanupOldCommands` (tmux.ts line 573):
    `command.status !== 'pending' && ageMinutes > maxAgeMinutes`, with the
    real-arithmetic age comparison `(now - startTime) / 60000 > maxAgeMinutes`
    rewritten as the equivalent integer comparison on milliseconds. -/
def shouldSweep (now maxAgeMinutes : Nat) (c : CommandExecution) : Bool :=
  c.status != .pending && maxAgeMinutes * 60000 < now - c.startTime

/-- The registry `activeCommands`, modelled as an association list keyed by
    command identifier. -/
abbrev Registry := List (String × CommandExecution)

/-- `cleanupOldCommands` (tmux.ts lines 567-577): delete every entry whose
    sweep condition holds. -/
def cleanupOldCommands (reg : Registry) (now maxAgeMinutes : Nat) : Registry :=
  reg.filter (fun p => !shouldSweep now maxAgeMinutes p.2)

/-- `activeCommands.set(id, c)`: insert or overwrite the entry for `id`. -/
def setEntry (reg : Registry) (id : String) (c : CommandExecution) : Registry :=
  (id, c) :: reg.filter (fun p => p.1 != id)

/-- `activeCommands.get(id)`. -/
def lookupEntry (reg : Registry) (id : String) : Option CommandExecution :=
  (reg.find? (fun p => p.1 == id)).map (fun p => p.2)

/-- The operations of the source that write the registry: `executeCommand`
    inserts a fresh pending record; `checkCommandStatus` stores its poll
    result for an existing record; `cleanupOldCommands` sweeps. -/
inductive RegistryStep : Registry → Registry → Prop where
  | execute (reg : Registry) (id paneId command initialContent : String)
      (now : Nat) :
      RegistryStep reg
        (setEntry reg id (mkPendingExecution id paneId command initialContent now))
  | check (reg : Registry) (id : String) (capture : Except String String)
      (now : Nat) (cmd : CommandExecution)
      (h : lookupEntry reg id = some cmd) :
      RegistryStep reg (setEntry reg id (checkCommandStatus cmd capture now).1)
  | cleanup (reg : Registry) (now maxAgeMinutes : Nat) :
      RegistryStep reg (cleanupOldCommands reg now maxAgeMinutes)

/-- Registry states reachable from the initial empty `activeCommands` map by
    the write operations of the source. -/
inductive ReachableRegistry : Registry → Prop where
  | init : ReachableRegistry []
  | step {r r' : Registry} :
      ReachableRegistry r → RegistryStep r r' → ReachableRegistry r'

/-! ### Completion-detection theorems (C1, C7) -/

/-- C1 (amended): a poll on a pending record with a successful capture
    transitions to `completed` — setting the inferred exit code to 0 and
    replacing the stored snapshot with the new content — if and only if the
    new content differs from the stored baseline, the content ends in one of
    the prompt patterns, and strictly more than the 500 time-unit dwell time
    has elapsed since creation; in every other case the record is returned
    unchanged, still `pending`. -/
theorem checkCommandStatus_pending_spec (cmd : CommandExecution) (c : String)
    (now : Nat) (h : cmd.status = .pending) :
    ((c ≠ cmd.result.getD "" ∧ hasPrompt c = true ∧ 500 < now - cmd.startTime) →
      checkCommandStatus cmd (.ok c) now =
        ({ cmd with status := .completed, exitCode := some 0, result := some c }, 1)) ∧
    (¬(c ≠ cmd.result.getD "" ∧ hasPrompt c = true ∧ 500 < now - cmd.startTime) →
      checkCommandStatus cmd (.ok c) now = (cmd, 1)) := by
  have hnp : ¬(cmd.status ≠ CommandStatus.pending) := by simp [h]
  constructor
  · rintro ⟨h1, h2, h3⟩
    unfold checkCommandStatus
    rw [if_neg hnp]
    dsimp only
    rw [if_pos ⟨h1, h2⟩, if_pos h3]
  · intro hn
    unfold checkCommandStatus
    rw [if_neg hnp]
    dsimp only
    by_cases h12 : (c ≠ cmd.result.getD "" ∧ hasPrompt c = true)
    · rw [if_pos h12]
      have h3 : ¬(500 < now - cmd.startTime) := fun h3 => hn ⟨h12.1, h12.2, h3⟩
      rw [if_neg h3]
    · rw [if_neg h12]

/-- Witness for C1 on a concrete pending record: changed content ending in
    "$" polled 1000 time units after creation completes with exit code 0 and
    the new snapshot stored. -/
theorem checkCommandStatus_pending_spec_witness :
    checkCommandStatus (mkPendingExecution "c1" "p1" "ls" "" 0) (.ok "x$") 1000 =
      (⟨"c1", "p1", "ls", .completed, 0, some "x$", some 0⟩, 1) :=
  (checkCommandStatus_pending_spec (mkPendingExecution "c1" "p1" "ls" "" 0)
    "x$" 1000 rfl).1 ⟨by decide, by decide, by decide⟩

/-- Counterexample to C1 as stated: at exactly 500 elapsed time units the
    minimum dwell time *has* elapsed ("at least 500"), the content differs
    from the baseline and ends in a prompt, yet the code (which requires
    strictly more than 500) leaves the record pending and unchanged. -/
theorem checkCommandStatus_dwell_boundary_counterexample :
    ("x$" ≠ (mkPendingExecution "c1" "p1" "ls" "" 0).result.getD "") ∧
    hasPrompt "x$" = true ∧
    500 ≤ 500 - (mkPendingExecution "c1" "p1" "ls" "" 0).startTime ∧
    (checkCommandStatus (mkPendingExecution "c1" "p1" "ls" "" 0) (.ok "x$") 500).1 =
      mkPendingExecution "c1" "p1" "ls" "" 0 ∧
    (checkCommandStatus (mkPendingExecution "c1" "p1" "ls" "" 0) (.ok "x$") 500).1.status =
      CommandStatus.pending := by
  decide

/-- C7: a poll on a record whose status is terminal (not pending) returns the
    stored record unchanged and performs no pane capture, for any capture
    outcome and any time — polling a terminal record is idempotent. -/
theorem checkCommandStatus_terminal_idempotent (cmd : CommandExecution)
    (captureResult : Except String String) (now : Nat)
    (h : cmd.status ≠ .pending) :
    checkCommandStatus cmd captureResult now = (cmd, 0) := by
  unfold checkCommandStatus
  rw [if_pos h]

/-- Witness for C7 at a concrete completed record. -/
theorem checkCommandStatus_terminal_idempotent_witness :
    checkCommandStatus ⟨"c1", "p1", "ls", .completed, 0, some "o$", some 0⟩
      (.ok "x$") 1000 =
      (⟨"c1", "p1", "ls", .completed, 0, some "o$", some 0⟩, 0) :=
  checkCommandStatus_terminal_idempotent _ _ _ (by decide)

/-! ### Janitor theorem (C8) -/

/-- C8: the sweep keeps exactly the entries that are not
    (terminal ∧ strictly older than the threshold): an entry survives iff it
    was present and it is not a terminal record older than `maxAgeMinutes`
    (age measured from `startTime` to `now`); pending records are never
    removed regardless of age. -/
theorem cleanupOldCommands_mem (reg : Registry) (now maxAgeMinutes : Nat)
    (p : String × CommandExecution) :
    p ∈ cleanupOldCommands reg now maxAgeMinutes ↔
      p ∈ reg ∧
        ¬(p.2.status ≠ .pending ∧ maxAgeMinutes * 60000 < now - p.2.startTime) := by
  unfold cleanupOldCommands shouldSweep
  rw [List.mem_filter]
  refine and_congr Iff.rfl ?_
  by_cases h1 : p.2.status = CommandStatus.pending
  · simp [h1]
  · by_cases h2 : maxAgeMinutes * 60000 < now - p.2.startTime
    · simp [h1, h2, bne_iff_ne]
    · simp [h1, h2, bne_iff_ne]

/-! ### Registry invariant (C9) -/

lemma mem_setEntry {reg : Registry} {id : String} {c : CommandExecution}
    {p : String × CommandExecution} (hp : p ∈ setEntry reg id c) :
    p = (id, c) ∨ p ∈ reg := by
  unfold setEntry at hp
  rcases List.mem_cons.mp hp with h | h
  · exact Or.inl h
  · exact Or.inr (List.mem_filter.mp h).1

lemma lookupEntry_mem {reg : Registry} {id : String} {cmd : CommandExecution}
    (h : lookupEntry reg id = some cmd) : ∃ k, (k, cmd) ∈ reg := by
  unfold lookupEntry at h
  cases hf : reg.find? (fun p => p.1 == id) with
  | none => rw [hf] at h; simp at h
  | some q =>
    rw [hf] at h
    simp at h
    refine ⟨q.1, ?_⟩
    have hq : q ∈ reg := List.mem_of_find?_eq_some hf
    rw [← h]
    exact hq

lemma checkCommandStatus_status_cases (cmd : CommandExecution)
    (cap : Except String String) (now : Nat) :
    (checkCommandStatus cmd cap now).1.status = cmd.status ∨
      (checkCommandStatus cmd cap now).1.status = .completed := by
  unfold checkCommandStatus
  by_cases h : cmd.status ≠ CommandStatus.pending
  · rw [if_pos h]; exact Or.inl rfl
  · rw [if_neg h]
    cases cap with
    | error e => exact Or.inl rfl
    | ok c =>
      dsimp only
      by_cases h12 : (c ≠ cmd.result.getD "" ∧ hasPrompt c = true)
      · rw [if_pos h12]
        by_cases h3 : 500 < now - cmd.startTime
        · rw [if_pos h3]; exact Or.inr rfl
        · rw [if_neg h3]; exact Or.inl rfl
      · rw [if_neg h12]; exact Or.inl rfl

/-- C9: in every registry state reachable by the write operations of the
    source — `executeCommand` inserting fresh pending records,
    `checkCommandStatus` storing poll results, `cleanupOldCommands`
    sweeping — every record's status is `pending` or `completed`; the status
    `error` named in the record type is never assigned. -/
theorem reachable_registry_no_error_status (reg : Registry)
    (h : ReachableRegistry reg) :
    ∀ p ∈ reg,
      p.2.status = CommandStatus.pending ∨ p.2.status = CommandStatus.completed := by
  induction h with
  | init => intro p hp; simp at hp
  | step hr hs ih =>
    intro p hp
    cases hs with
    | execute id paneId command initialContent now =>
      rcases mem_setEntry hp with heq | hmem
      · subst heq; exact Or.inl rfl
      · exact ih _ hmem
    | check id capture now cmd hl =>
      rcases mem_setEntry hp with heq | hmem
      · subst heq
        obtain ⟨k, hk⟩ := lookupEntry_mem hl
        rcases checkCommandStatus_status_cases cmd capture now with hc | hc
        · rw [hc]
          exact ih _ hk
        · exact Or.inr hc
      · exact ih _ hmem
    | cleanup now maxAgeMinutes =>
      exact ih _ (List.mem_filter.mp hp).1

/-- Witness for C9: the singleton registry reached by one `executeCommand`
    insertion satisfies the invariant at its entry. -/
theorem reachable_registry_no_error_status_witness :
    (mkPendingExecution "c1" "p1" "ls" "" 0).status = CommandStatus.pending ∨
      (mkPendingExecution "c1" "p1" "ls" "" 0).status = CommandStatus.completed :=
  reachable_registry_no_error_status _
    (ReachableRegistry.step ReachableRegistry.init
      (RegistryStep.execute [] "c1" "p1" "ls" "" 0))
    ("c1", mkPendingExecution "c1" "p1" "ls" "" 0) (by simp [setEntry])

/-! ### Shell configuration theorem (C10) -/

/-- C10: `setShellConfig` with a type string outside {bash, zsh, fish}
    silently resets the process-wide configuration to bash, discarding any
    previously configured shell, while a valid type sets exactly that type. -/
theorem setShellConfig_spec (prev : ShellType) (t : String) :
    (validShells.contains t = false → setShellConfig prev t = .bash) ∧
    (t = "bash" → setShellConfig prev t = .bash) ∧
    (t = "zsh" → setShellConfig prev t = .zsh) ∧
    (t = "fish" → setShellConfig prev t = .fish) := by
  refine ⟨?_, ?_, ?_, ?_⟩
  · intro h
    unfold setShellConfig
    rw [h]
    rfl
  · rintro rfl; rfl
  · rintro rfl; rfl
  · rintro rfl; rfl

/-- Witness for C10: an invalid type ("ksh") resets a previously configured
    fish shell to bash; a valid type ("zsh") is set exactly. -/
theorem setShellConfig_spec_witness :
    setShellConfig ShellType.fish "ksh" = ShellType.bash ∧
    setShellConfig ShellType.fish "zsh" = ShellType.zsh :=
  ⟨(setShellConfig_spec ShellType.fish "ksh").1 (by decide),
   (setShellConfig_spec ShellType.fish "zsh").2.2.1 rfl⟩
